import Mathlib

set_option maxRecDepth 4000

/-!
Verification of the MarbleBag repository (dependent random integers).

The repository contains two variants of the same `MarbleBag< NumMarbles >`
class template:

* the bitset-based variant (namespace `crux` in the source, file
  `src/unnamed/part_000`), embedded below as `MarbleBagCrux`;
* the packed-64-bit-word variant (namespace `dark` in the source, file
  `src/MarbleBag.h`), embedded below as `MarbleBagDark`.

The stateful `std::function< int() > m_roll` (a `std::uniform_int_distribution`
bound to a random engine) is modelled as a stream `roll : ℕ → ℕ` of successive
outputs together with a cursor `rollPos`; `std::uniform_int_distribution(0, N-1)`
guarantees every output is in `[0, N-1]`, which appears as the hypothesis
`∀ i, roll i < numMarbles` where needed.  Machine `int` fields are modelled as
`ℤ`, 64-bit words as `ℕ` values below `2 ^ 64`.
-/

namespace MarbleBagCrux

/-- State of `crux::MarbleBag< NumMarbles >` (`src/unnamed/part_000`):
`m_removedMarbles : std::bitset< NumMarbles >` as a list of `NumMarbles`
booleans, `m_numRemoved : int` as `ℤ`, the public `bAutoReset` flag, and the
roll stream with its cursor. -/
structure Bag where
  numMarbles : ℕ
  roll : ℕ → ℕ
  rollPos : ℕ
  removed : List Bool
  numRemoved : ℤ
  bAutoReset : Bool

/-- `GetRemainingCount`: `NumMarbles - m_numRemoved`. -/
def GetRemainingCount (b : Bag) : ℤ := (b.numMarbles : ℤ) - b.numRemoved

/-- `HasMarbles`: `GetRemainingCount() > 0`. -/
def HasMarbles (b : Bag) : Bool := decide (0 < GetRemainingCount b)

/-- `Reset`: `m_removedMarbles.reset(); m_numRemoved = 0;`. -/
def Reset (b : Bag) : Bag :=
  { b with removed := List.replicate b.numMarbles false, numRemoved := 0 }

/-- `SetRandomEngine`: rebinds `m_roll` to a fresh distribution over a new
engine, so the stream is replaced and its cursor restarts. -/
def SetRandomEngine (b : Bag) (roll : ℕ → ℕ) : Bag :=
  { b with roll := roll, rollPos := 0 }

/-- The explicit constructor `MarbleBag( RandomEngineType&& )`: members get
their default initializers (`m_removedMarbles` all clear, `m_numRemoved = 0`,
`bAutoReset = true`), then `SetRandomEngine` installs the roll. -/
def mkBag (n : ℕ) (roll : ℕ → ℕ) : Bag :=
  ⟨n, roll, 0, List.replicate n false, 0, true⟩

/-- The wrap-around increment `if( ++result >= NumMarbles ) result = 0;`. -/
def wrapInc (n r : ℕ) : ℕ := if n ≤ r + 1 then 0 else r + 1

/-- The selection loop of `crux` `GetNext`:
`while( numEmptyIndexesVisited < numToVisit ) { if( ++result >= NumMarbles )
result = 0; if( !m_removedMarbles[ result ] ) ++numEmptyIndexesVisited; }`.
`fuel` bounds the number of loop-body executions (the C++ loop is unbounded;
`none` models exceeding the fuel), `steps` counts the loop-body executions
performed so far; the returned pair is the final `result` and the total step
count. -/
def walk (removed : List Bool) (n toVisit : ℕ) :
    ℕ → ℕ → ℕ → ℕ → Option (ℕ × ℕ)
  | 0, result, count, steps =>
      if toVisit ≤ count then some (result, steps) else none
  | fuel + 1, result, count, steps =>
      if toVisit ≤ count then some (result, steps)
      else
        walk removed n toVisit fuel (wrapInc n result)
          (if removed.getD (wrapInc n result) true then count else count + 1)
          (steps + 1)

/-- Iterated wrap-around increment: the position of the selection loop after a
given number of loop-body executions (a proof device, not source code). -/
def wrapIncIter (n : ℕ) : ℕ → ℕ → ℕ
  | p, 0 => p
  | p, m + 1 => wrapIncIter n (wrapInc n p) m

/-- The body of `crux` `GetNext` after the exhaustion check: roll a candidate;
if its bit is set, roll `numToVisit` and run the selection loop; mark the final
slot and increment `m_numRemoved`.  The fuel `numToVisit * numMarbles` is shown
sufficient whenever an unremoved slot exists (`walk_succeeds`). -/
def drawBody (b : Bag) : Option (ℤ × Bag) :=
  if b.removed.getD (b.roll b.rollPos) false then
    match walk b.removed b.numMarbles (b.roll (b.rollPos + 1))
        (b.roll (b.rollPos + 1) * b.numMarbles) (b.roll b.rollPos) 0 0 with
    | some (r, _) =>
        some ((r : ℤ),
          { b with rollPos := b.rollPos + 2,
                   removed := b.removed.set r true,
                   numRemoved := b.numRemoved + 1 })
    | none => none
  else
    some ((b.roll b.rollPos : ℤ),
      { b with rollPos := b.rollPos + 1,
               removed := b.removed.set (b.roll b.rollPos) true,
               numRemoved := b.numRemoved + 1 })

/-- `crux` `GetNext`: `if( !HasMarbles() ) { if( bAutoReset ) Reset(); else
return -1; }` then the draw body. -/
def GetNext (b : Bag) : Option (ℤ × Bag) :=
  if HasMarbles b then drawBody b
  else if b.bAutoReset then drawBody (Reset b)
  else some (-1, b)

/-- Run `n` consecutive `GetNext` calls, collecting the returned values. -/
def drawSeq (b : Bag) : ℕ → Option (List ℤ × Bag)
  | 0 => some ([], b)
  | n + 1 =>
      match drawSeq b n with
      | none => none
      | some (rs, b') =>
          match GetNext b' with
          | none => none
          | some (r, b'') => some (rs ++ [r], b'')

/-- The list of values returned by `n` consecutive draws. -/
def results (b : Bag) (n : ℕ) : Option (List ℤ) := (drawSeq b n).map Prod.fst

/-- The bag state after `n` consecutive draws. -/
def bagAfter (b : Bag) (n : ℕ) : Option Bag := (drawSeq b n).map Prod.snd

/-- Move assignment `operator=( MarbleBag&& other )`: moves
`m_removedMarbles` and `m_roll` (with its engine state, hence the cursor) from
`src`; `m_numRemoved` and `bAutoReset` of the destination are not touched. -/
def moveAssign (dest src : Bag) : Bag :=
  { dest with removed := src.removed, roll := src.roll, rollPos := src.rollPos }

/-- Move construction `MarbleBag( MarbleBag&& other )`: default-initializes the
members (`m_numRemoved = 0`, `bAutoReset = true`, bitmap clear, an empty roll —
modelled by an arbitrary placeholder since it is immediately overwritten), then
move-assigns from `src`. -/
def moveConstruct (src : Bag) : Bag :=
  moveAssign
    ⟨src.numMarbles, fun _ => 0, 0, List.replicate src.numMarbles false, 0, true⟩
    src

/-- Operations a caller can drive a bag with. -/
inductive Op where
  | draw : Op
  | reset : Op
  | remaining : Op
  | marbles : Op
deriving DecidableEq

/-- Run a single operation, returning an observed value (`GetNext`'s return,
the remaining count, or `HasMarbles` encoded as 1/0; `Reset` observes 0). -/
def runOp (b : Bag) : Op → Option (ℤ × Bag)
  | Op.draw => GetNext b
  | Op.reset => some (0, Reset b)
  | Op.remaining => some (GetRemainingCount b, b)
  | Op.marbles => some (if HasMarbles b then 1 else 0, b)

/-- Run a sequence of operations, collecting the observed values. -/
def runOps (b : Bag) : List Op → Option (List ℤ × Bag)
  | [] => some ([], b)
  | op :: ops =>
      match runOp b op with
      | none => none
      | some (r, b') =>
          match runOps b' ops with
          | none => none
          | some (rs, b'') => some (r :: rs, b'')

end MarbleBagCrux

namespace MarbleBagDark

/-- `NUM_BITS = sizeof( std::uint64_t ) * 8`. -/
def NUM_BITS : ℕ := 64

/-- `DoubleCeilToInt( 1.0 * NumMarbles / NUM_BITS )`, the number of 64-bit
words of `m_removedMarbles` (the double arithmetic is exact for `int`-sized
`NumMarbles`). -/
def arraySize (numMarbles : ℕ) : ℕ := (numMarbles + 63) / 64

/-- `bitRange = NumMarbles < NUM_BITS ? NumMarbles : NUM_BITS`. -/
def bitRange (numMarbles : ℕ) : ℕ := min numMarbles 64

/-- `mask = 0xffffffffffffffffU`. -/
def mask64 : ℕ := 2 ^ 64 - 1

/-- State of `dark::MarbleBag< NumMarbles >` (`src/MarbleBag.h`):
`m_removedMarbles : std::array< std::uint64_t, arraySize >` as a list of
words, `m_numRemoved : int` as `ℤ`, and the roll stream with its cursor. -/
structure Bag where
  numMarbles : ℕ
  roll : ℕ → ℕ
  rollPos : ℕ
  removedMarbles : List ℕ
  numRemoved : ℤ

/-- The explicit constructor: all words zero, `m_numRemoved = 0`. -/
def mkBag (n : ℕ) (roll : ℕ → ℕ) : Bag :=
  ⟨n, roll, 0, List.replicate (arraySize n) 0, 0⟩

/-- The inner loop of `dark` `GetNext` over one word: up to `range` probes of
`currVal`, starting at bit `remainder`, wrapping at `range`; returns the bit
position of the first clear probe (if any) together with the final value of
`remainder` (which the fall-through path hands to the next outer iteration). -/
def innerScan (currVal range : ℕ) : ℕ → ℕ → Option ℕ × ℕ
  | 0, remainder => (none, remainder)
  | i + 1, remainder =>
      if 2 ^ remainder &&& currVal = 0 then (some remainder, remainder)
      else innerScan currVal range i (if range ≤ remainder + 1 then 0 else remainder + 1)

/-- The outer loop of `dark` `GetNext` over `aSize` words: a full word
(`currVal ^ mask == 0`) advances `idx` with wrap and clears `remainder`; a
non-full word is scanned by `innerScan` (on fall-through `idx` is left
unchanged, exactly as in the source). -/
def outerScan (words : List ℕ) (aSize range : ℕ) : ℕ → ℕ → ℕ → Option (ℕ × ℕ)
  | 0, _, _ => none
  | a + 1, idx, remainder =>
      let currVal := words.getD idx 0
      if currVal ^^^ mask64 ≠ 0 then
        match innerScan currVal range range remainder with
        | (some r, _) => some (idx, r)
        | (none, r') => outerScan words aSize range a idx r'
      else
        outerScan words aSize range a (if aSize ≤ idx + 1 then 0 else idx + 1) 0

/-- `dark` `GetNext`: roll, split into word index and bit remainder
(`idx = result * (1/64.0)` truncated, exact for these magnitudes), scan for a
clear bit, set it, increment `m_numRemoved`, return `idx * 64 + remainder`;
`-1` if the scan exhausts the outer loop. -/
def GetNext (b : Bag) : ℤ × Bag :=
  let result := b.roll b.rollPos
  let idx := result / 64
  let remainder := result % 64
  match outerScan b.removedMarbles (arraySize b.numMarbles) (bitRange b.numMarbles)
      (arraySize b.numMarbles) idx remainder with
  | some (i, r) =>
      (((i * 64 + r : ℕ) : ℤ),
        { b with rollPos := b.rollPos + 1,
                 removedMarbles :=
                   b.removedMarbles.set i (b.removedMarbles.getD i 0 ||| 2 ^ r),
                 numRemoved := b.numRemoved + 1 })
  | none => (-1, { b with rollPos := b.rollPos + 1 })

/-- `GetUsageData( std::uint64_t* _outData, std::size_t& _outNumElements )`:
`_outData` is a pointer passed BY VALUE, so the assignment
`_outData = m_removedMarbles.data()` inside the function is invisible to the
caller — after the call the caller's pointer still designates whatever buffer
it designated before (its contents modelled by `callerData`).  Only
`_outNumElements` (passed by reference) is updated, to
`m_removedMarbles.size()`.  The function returns the caller-visible pair
(contents designated by the caller's pointer, element count). -/
def GetUsageData (b : Bag) (callerData : List ℕ) : List ℕ × ℕ :=
  (callerData, arraySize b.numMarbles)

/-- `SetUsageData( std::uint64_t* _inData, std::size_t _inNumElements )`:
`smallerSize = min( m_removedMarbles.size(), _inNumElements )`, then
`m_removedMarbles.fill( 0 )` and `memcpy` of the first `smallerSize` caller
words.  `m_numRemoved` is not touched. -/
def SetUsageData (b : Bag) (inData : List ℕ) (inNum : ℕ) : Bag :=
  { b with removedMarbles :=
      inData.take (min (arraySize b.numMarbles) inNum) ++
        List.replicate (arraySize b.numMarbles - min (arraySize b.numMarbles) inNum) 0 }

/-- Run `n` consecutive `dark` `GetNext` calls (total, since both loops are
bounded in the source), collecting the returned values. -/
def drawSeq (b : Bag) : ℕ → List ℤ × Bag
  | 0 => ([], b)
  | n + 1 =>
      let p := drawSeq b n
      let q := GetNext p.2
      (p.1 ++ [q.1], q.2)

/-- The list of values returned by `n` consecutive `dark` draws. -/
def results (b : Bag) (n : ℕ) : List ℤ := (drawSeq b n).1

/-- The `dark` bag state after `n` consecutive draws. -/
def bagAfter (b : Bag) (n : ℕ) : Bag := (drawSeq b n).2

end MarbleBagDark

/-! ## Concrete instances used in counterexamples and witnesses -/

/-- A roll stream that always yields 0 (a legal output sequence of
`std::uniform_int_distribution( 0, NumMarbles - 1 )` for any `NumMarbles ≥ 1`). -/
def rollZero : ℕ → ℕ := fun _ => 0

/-- A fresh `crux::MarbleBag< 2 >` whose rolls all come out 0. -/
def cruxBag2 : MarbleBagCrux.Bag := MarbleBagCrux.mkBag 2 rollZero

/-- Roll stream 0, 1, 0, 2, 0, 0, … for the walk-length demonstration. -/
def rollsWalkDemo : ℕ → ℕ := fun n => [0, 1, 0, 2].getD n 0

/-- A fresh `crux::MarbleBag< 3 >` driven by `rollsWalkDemo`. -/
def cruxBag3 : MarbleBagCrux.Bag := MarbleBagCrux.mkBag 3 rollsWalkDemo

/-- A roll stream that always yields 64 (legal for `NumMarbles = 65`). -/
def roll64 : ℕ → ℕ := fun _ => 64

/-- A fresh `dark::MarbleBag< 65 >` whose rolls all come out 64. -/
def darkBag65 : MarbleBagDark.Bag := MarbleBagDark.mkBag 65 roll64

/-- The `dark::MarbleBag< 64 >` reached from a fresh bag by one draw with
roll 0: word array `[1]` (bit 0 set), one marble removed. -/
def darkUsageBag : MarbleBagDark.Bag :=
  MarbleBagDark.bagAfter (MarbleBagDark.mkBag 64 rollZero) 1

/-- An exhausted `crux::MarbleBag< 2 >` with `bAutoReset = false`. -/
def cruxExhaustedNoAuto : MarbleBagCrux.Bag :=
  ⟨2, rollZero, 0, [true, true], 2, false⟩

/-- An exhausted `crux::MarbleBag< 2 >` with `bAutoReset = true`. -/
def cruxExhaustedAuto : MarbleBagCrux.Bag :=
  ⟨2, rollZero, 0, [true, true], 2, true⟩

/-! ## Claim theorems -/

/-- C1: the claim "for every N > 0 and every sequence of exactly N consecutive
successful draws with no reset in between, the N indices returned by `GetNext`
are pairwise distinct and form a permutation of `[0, N-1]`; draw never returns
an index that was already returned since the last reset" is violated by the
code: on a fresh `crux::MarbleBag< 2 >` whose rolls all yield 0 (the second
draw rolls an already-removed candidate and then rolls `numToVisit = 0`, so the
selection loop body never runs), the two draws return `[0, 0]` — the slot 0 is
returned twice, the result list is not pairwise distinct and is not a
permutation of `[0, 1]`. -/
theorem C1_getNext_repeats_slot :
    MarbleBagCrux.results cruxBag2 2 = some [0, 0] ∧
    ¬ List.Nodup [(0 : ℤ), 0] ∧ ¬ List.Perm [(0 : ℤ), 0] [0, 1] := by
  refine ⟨by decide, by decide, by decide⟩

/-- C2: the claim "drawnCount == popcount(exhausted) holds after construction
and is preserved by draw …: every successful draw increases `m_numRemoved` by
exactly 1 and sets exactly one previously-clear bit" is violated by the code:
after the two draws of `cruxBag2` (second draw repeats slot 0, setting no new
bit), `m_numRemoved = 2` while the bitmap `[true, false]` has popcount 1. -/
theorem C2_invariant_broken :
    (MarbleBagCrux.bagAfter cruxBag2 2).map
        (fun b => (b.numRemoved, (b.removed.count true : ℤ), b.removed)) =
      some (2, 1, [true, false]) ∧
    (2 : ℤ) ≠ 1 := by
  refine ⟨by decide, by decide⟩

/-- C4: the claim "calling `GetUsageData` and feeding its output word array and
word count to `SetUsageData` on a bag of the same N reproduces a bitmap
identical to the one at export time, and draws made after the import never
return a slot whose bit was set at export time" is violated by the code:
`GetUsageData` assigns the data pointer to a parameter passed by value, so the
caller receives only the element count and its own buffer is left untouched.
Concretely, for the reachable `dark::MarbleBag< 64 >` state with bitmap `[1]`
(slot 0 drawn) and a caller buffer `[0]`, the export returns `([0], 1)`,
importing that yields bitmap `[0]` ≠ `[1]`, and the next draw returns slot 0,
whose bit was set at export time. -/
theorem C4_usage_roundtrip_broken :
    MarbleBagDark.results (MarbleBagDark.mkBag 64 rollZero) 1 = [0] ∧
    darkUsageBag.removedMarbles = [1] ∧
    MarbleBagDark.GetUsageData darkUsageBag [0] = ([0], 1) ∧
    (MarbleBagDark.SetUsageData darkUsageBag
        (MarbleBagDark.GetUsageData darkUsageBag [0]).1
        (MarbleBagDark.GetUsageData darkUsageBag [0]).2).removedMarbles = [0] ∧
    ([0] : List ℕ) ≠ [1] ∧
    (MarbleBagDark.GetNext (MarbleBagDark.SetUsageData darkUsageBag
        (MarbleBagDark.GetUsageData darkUsageBag [0]).1
        (MarbleBagDark.GetUsageData darkUsageBag [0]).2)).1 = 0 ∧
    darkUsageBag.removedMarbles.getD 0 0 &&& 2 ^ 0 ≠ 0 := by
  refine ⟨by decide, by decide, by decide, by decide, by decide, by decide, by decide⟩

/-- C5: the claim "every successful draw (`GetNext`) returns an index in the
range `[0, N-1]`, for every N > 0, including values of N that are not a
multiple of 64" is violated by the word-packed variant: on a fresh
`dark::MarbleBag< 65 >` whose rolls all yield 64 (a legal distribution
output), the first draw returns 64 and the second draw walks from the set bit
64 onto the padding bit 65 of the last word and returns 65, which is outside
`[0, 64]`. -/
theorem C5_out_of_range_draw :
    MarbleBagDark.results darkBag65 2 = [64, 65] ∧ ¬ ((65 : ℤ) ≤ 64) := by
  refine ⟨by decide, by decide⟩

/-- C9 counterexample: the claim "the walk to find an unvisited slot makes at
most one pass over the bag's bits (the selection loop executes at most N
index-visiting steps)" is false.  On the fresh `crux::MarbleBag< 3 >` driven by
rolls 0, 1, 0, 2: the first two draws return 0 and 1, leaving the reachable
state with bitmap `[true, true, false]` and roll cursor 2; the third `GetNext`
rolls candidate 0 (already removed) and `numToVisit = 2`, and its selection
loop — `walk [true, true, false] 3 2` from position 0 — executes 5 loop-body
steps before landing on slot 2, and 5 exceeds N = 3. -/
theorem C9_walk_exceeds_one_pass :
    MarbleBagCrux.results cruxBag3 3 = some [0, 1, 2] ∧
    (MarbleBagCrux.drawSeq cruxBag3 2).map
        (fun p => (p.2.removed, p.2.rollPos)) = some ([true, true, false], 2) ∧
    rollsWalkDemo 2 = 0 ∧ rollsWalkDemo 3 = 2 ∧
    MarbleBagCrux.walk [true, true, false] 3 2 6 0 0 0 = some (2, 5) ∧
    ¬ (5 ≤ 3) := by
  refine ⟨by decide, by decide, by decide, by decide, by decide, by decide⟩

/-! ## Helper lemmas about the crux selection loop -/

namespace MarbleBagCrux

lemma wrapInc_lt {n : ℕ} (r : ℕ) (hn : 0 < n) : wrapInc n r < n := by
  unfold wrapInc; split <;> omega

lemma wrapInc_eq_mod {n : ℕ} (r : ℕ) (hr : r < n) : wrapInc n r = (r + 1) % n := by
  unfold wrapInc
  split
  · have h : r + 1 = n := by omega
    simp [h]
  · rw [Nat.mod_eq_of_lt (by omega)]

lemma wrapIncIter_eq_mod {n : ℕ} (hn : 0 < n) :
    ∀ m p, p < n → wrapIncIter n p m = (p + m) % n := by
  intro m
  induction m with
  | zero => intro p hp; simp [wrapIncIter, Nat.mod_eq_of_lt hp]
  | succ m ih =>
      intro p hp
      have h1 : wrapIncIter n p (m + 1) = wrapIncIter n (wrapInc n p) m := rfl
      rw [h1, ih (wrapInc n p) (wrapInc_lt p hn), wrapInc_eq_mod p hp,
        Nat.mod_add_mod]
      congr 1
      omega

lemma exists_cycle_hit {n : ℕ} (p e : ℕ) (hp : p < n) (he : e < n) :
    ∃ k, k < n ∧ (p + (k + 1)) % n = e := by
  rcases Nat.lt_or_ge p e with h | h
  · refine ⟨e - p - 1, by omega, ?_⟩
    have h1 : p + (e - p - 1 + 1) = e := by omega
    rw [h1, Nat.mod_eq_of_lt he]
  · refine ⟨n - 1 - p + e, by omega, ?_⟩
    have h1 : p + (n - 1 - p + e + 1) = n + e := by omega
    rw [h1, Nat.add_mod_left, Nat.mod_eq_of_lt he]

lemma count_true_lt_exists_false :
    ∀ l : List Bool, l.count true < l.length →
      ∃ i, i < l.length ∧ l.getD i true = false := by
  intro l
  induction l with
  | nil => intro h; simp at h
  | cons a tl ih =>
      intro h
      cases a with
      | false => exact ⟨0, by simp, rfl⟩
      | true =>
          have h' : tl.count true < tl.length := by
            have hc : (true :: tl).count true = tl.count true + 1 :=
              List.count_cons_self true tl
            rw [hc] at h
            simpa using h
          obtain ⟨i, hi, hg⟩ := ih h'
          exact ⟨i + 1, by simpa using hi, hg⟩

lemma walk_steps_le (removed : List Bool) (n toVisit : ℕ) :
    ∀ fuel result count steps r s,
      walk removed n toVisit fuel result count steps = some (r, s) →
      s ≤ steps + fuel := by
  intro fuel
  induction fuel with
  | zero =>
      intro result count steps r s h
      rw [walk] at h
      split at h
      · cases h; omega
      · cases h
  | succ f ih =>
      intro result count steps r s h
      rw [walk] at h
      split at h
      · cases h; omega
      · have := ih _ _ _ _ _ h
        omega

lemma walk_succeeds (removed : List Bool) (n toVisit : ℕ)
    (e : ℕ) (he : e < n) (hemp : removed.getD e true = false) :
    ∀ t fuel result count steps, result < n → toVisit ≤ count + t →
      t * n ≤ fuel →
      ∃ r s, walk removed n toVisit fuel result count steps = some (r, s) := by
  have hn : 0 < n := Nat.lt_of_le_of_lt (Nat.zero_le e) he
  intro t
  induction t with
  | zero =>
      intro fuel result count steps _ hv _
      have hv' : toVisit ≤ count := by omega
      cases fuel with
      | zero => exact ⟨result, steps, by rw [walk, if_pos hv']⟩
      | succ f => exact ⟨result, steps, by rw [walk, if_pos hv']⟩
  | succ t ih =>
      have inner : ∀ k fuel result count steps, result < n → count < toVisit →
          toVisit ≤ count + (t + 1) →
          removed.getD (wrapIncIter n result (k + 1)) true = false →
          k + 1 + t * n ≤ fuel →
          ∃ r s, walk removed n toVisit fuel result count steps = some (r, s) := by
        intro k
        induction k with
        | zero =>
            intro fuel result count steps hres hcv hvt hfalse hfuel
            obtain ⟨f, rfl⟩ : ∃ f, fuel = f + 1 := ⟨fuel - 1, by omega⟩
            have hfalse' : removed.getD (wrapInc n result) true = false := by
              simpa [wrapIncIter] using hfalse
            rw [walk, if_neg (by omega), if_neg (by rw [hfalse']; simp)]
            exact ih f (wrapInc n result) (count + 1) (steps + 1)
              (wrapInc_lt _ hn) (by omega) (by omega)
        | succ k ihk =>
            intro fuel result count steps hres hcv hvt hfalse hfuel
            obtain ⟨f, rfl⟩ : ∃ f, fuel = f + 1 := ⟨fuel - 1, by omega⟩
            rw [walk, if_neg (by omega)]
            by_cases hr : removed.getD (wrapInc n result) true = true
            · rw [if_pos hr]
              exact ihk f (wrapInc n result) count (steps + 1)
                (wrapInc_lt _ hn) hcv hvt hfalse (by omega)
            · rw [if_neg hr]
              exact ih f (wrapInc n result) (count + 1) (steps + 1)
                (wrapInc_lt _ hn) (by omega) (by omega)
      intro fuel result count steps hres hvt hfuel
      by_cases hv : toVisit ≤ count
      · cases fuel with
        | zero => exact ⟨result, steps, by rw [walk, if_pos hv]⟩
        | succ f => exact ⟨result, steps, by rw [walk, if_pos hv]⟩
      · obtain ⟨k, hk, hke⟩ := exists_cycle_hit result e hres he
        have hiter : wrapIncIter n result (k + 1) = e := by
          rw [wrapIncIter_eq_mod hn _ _ hres, hke]
        have hmul : (t + 1) * n = t * n + n := by ring
        exact inner k fuel result count steps hres (by omega) hvt
          (by rw [hiter]; exact hemp) (by omega)

lemma drawBody_succeeds (b : Bag) (hlen : b.removed.length = b.numMarbles)
    (hcnt : b.removed.count true < b.numMarbles)
    (hroll : ∀ i, b.roll i < b.numMarbles) :
    ∃ (r : ℕ) (b' : Bag), drawBody b = some ((r : ℤ), b') := by
  have hres := hroll b.rollPos
  by_cases h : b.removed.getD (b.roll b.rollPos) false = true
  · obtain ⟨e, he, hemp⟩ := count_true_lt_exists_false b.removed (by omega)
    obtain ⟨r, s, hw⟩ := walk_succeeds b.removed b.numMarbles
      (b.roll (b.rollPos + 1)) e (by omega) hemp (b.roll (b.rollPos + 1))
      (b.roll (b.rollPos + 1) * b.numMarbles) (b.roll b.rollPos) 0 0
      hres (by omega) le_rfl
    refine ⟨r, { b with rollPos := b.rollPos + 2,
                        removed := b.removed.set r true,
                        numRemoved := b.numRemoved + 1 }, ?_⟩
    rw [drawBody, if_pos h, hw]
  · refine ⟨b.roll b.rollPos,
      { b with rollPos := b.rollPos + 1,
               removed := b.removed.set (b.roll b.rollPos) true,
               numRemoved := b.numRemoved + 1 }, ?_⟩
    rw [drawBody, if_neg h]

end MarbleBagCrux

namespace MarbleBagCrux

lemma getD_replicate_false (n i : ℕ) :
    (List.replicate n false).getD i false = false := by
  simp [List.getD_eq_getElem?_getD]

lemma hasMarbles_iff (b : Bag) :
    HasMarbles b = true ↔ b.numRemoved < (b.numMarbles : ℤ) := by
  rw [HasMarbles, decide_eq_true_eq, GetRemainingCount]
  omega

lemma count_true_replicate_false (n : ℕ) :
    (List.replicate n false).count true = 0 := by
  simp [List.count_replicate]

lemma getNext_succeeds (b : Bag) (hlen : b.removed.length = b.numMarbles)
    (hcnt : (b.removed.count true : ℤ) ≤ b.numRemoved)
    (hroll : ∀ i, b.roll i < b.numMarbles) :
    ∃ x, GetNext b = some x := by
  have hn : 0 < b.numMarbles := Nat.lt_of_le_of_lt (Nat.zero_le _) (hroll 0)
  by_cases hm : HasMarbles b = true
  · have hlt : b.numRemoved < (b.numMarbles : ℤ) := (hasMarbles_iff b).mp hm
    obtain ⟨r, b', hd⟩ := drawBody_succeeds b hlen (by omega) hroll
    exact ⟨_, by rw [GetNext, if_pos hm, hd]⟩
  · rw [Bool.not_eq_true] at hm
    by_cases ha : b.bAutoReset = true
    · obtain ⟨r, b', hd⟩ := drawBody_succeeds (Reset b)
        (by simp [Reset]) (by simp [Reset, count_true_replicate_false]; omega) hroll
      exact ⟨_, by rw [GetNext, hm, if_neg (by simp), ha, if_pos rfl, hd]⟩
    · rw [Bool.not_eq_true] at ha
      exact ⟨_, by rw [GetNext, hm, if_neg (by simp), ha, if_neg (by simp)]⟩

end MarbleBagCrux

/-- C3: when `m_numRemoved = NumMarbles` and `bAutoReset` is false, `GetNext`
returns the sentinel `-1` and leaves the whole bag state unchanged, and
`GetRemainingCount` reads 0 beforehand; when `m_numRemoved < NumMarbles`,
`GetNext` succeeds and never returns the sentinel.  Hypotheses: the bitmap has
`NumMarbles` bits, its popcount does not exceed `m_numRemoved` (which holds in
every state reachable by construction, draws and resets), and the rolls are in
`[0, NumMarbles - 1]` as `std::uniform_int_distribution` guarantees. -/
theorem C3_exhaustion_signaling (b : MarbleBagCrux.Bag)
    (hlen : b.removed.length = b.numMarbles)
    (hcnt : (b.removed.count true : ℤ) ≤ b.numRemoved)
    (hroll : ∀ i, b.roll i < b.numMarbles) :
    (MarbleBagCrux.HasMarbles b = false → b.bAutoReset = false →
      MarbleBagCrux.GetNext b = some (-1, b)) ∧
    (b.numRemoved = (b.numMarbles : ℤ) → MarbleBagCrux.GetRemainingCount b = 0) ∧
    (b.numRemoved < (b.numMarbles : ℤ) →
      ∃ (r : ℕ) (b' : MarbleBagCrux.Bag),
        MarbleBagCrux.GetNext b = some ((r : ℤ), b') ∧ (r : ℤ) ≠ -1) := by
  refine ⟨?_, ?_, ?_⟩
  · intro hm ha
    rw [MarbleBagCrux.GetNext, hm, if_neg (by simp), ha, if_neg (by simp)]
  · intro h
    simp [MarbleBagCrux.GetRemainingCount, h]
  · intro h
    have hm : MarbleBagCrux.HasMarbles b = true := (MarbleBagCrux.hasMarbles_iff b).mpr h
    obtain ⟨r, b', hd⟩ := MarbleBagCrux.drawBody_succeeds b hlen (by omega) hroll
    refine ⟨r, b', ?_, by omega⟩
    rw [MarbleBagCrux.GetNext, if_pos hm, hd]

/-- C3 witness: the exhausted two-marble bag with `bAutoReset = false` gets
`-1` from `GetNext` with its state unchanged. -/
theorem C3_exhaustion_signaling_witness :
    MarbleBagCrux.GetNext cruxExhaustedNoAuto = some (-1, cruxExhaustedNoAuto) :=
  (C3_exhaustion_signaling cruxExhaustedNoAuto rfl (by decide)
    (fun _ => Nat.zero_lt_two)).1 (by decide) rfl

/-- C6: with `bAutoReset = true` and the bag exhausted, the next `GetNext` has
exactly the same result and resulting state as calling `Reset` first and then
drawing with the same roll-stream state, and that draw succeeds (the rolls are
distribution outputs in `[0, NumMarbles - 1]`). -/
theorem C6_auto_refill_continuity (b : MarbleBagCrux.Bag)
    (hroll : ∀ i, b.roll i < b.numMarbles)
    (hm : MarbleBagCrux.HasMarbles b = false)
    (ha : b.bAutoReset = true) :
    MarbleBagCrux.GetNext b = MarbleBagCrux.GetNext (MarbleBagCrux.Reset b) ∧
    ∃ (r : ℕ) (b' : MarbleBagCrux.Bag),
      MarbleBagCrux.GetNext b = some ((r : ℤ), b') := by
  have hn : 0 < b.numMarbles := Nat.lt_of_le_of_lt (Nat.zero_le _) (hroll 0)
  have hmr : MarbleBagCrux.HasMarbles (MarbleBagCrux.Reset b) = true := by
    rw [MarbleBagCrux.hasMarbles_iff]
    simp [MarbleBagCrux.Reset]
    omega
  have h1 : MarbleBagCrux.GetNext b = MarbleBagCrux.drawBody (MarbleBagCrux.Reset b) := by
    rw [MarbleBagCrux.GetNext, hm, if_neg (by simp), ha, if_pos rfl]
  have h2 : MarbleBagCrux.GetNext (MarbleBagCrux.Reset b) =
      MarbleBagCrux.drawBody (MarbleBagCrux.Reset b) := by
    rw [MarbleBagCrux.GetNext, if_pos hmr]
  obtain ⟨r, b', hd⟩ := MarbleBagCrux.drawBody_succeeds (MarbleBagCrux.Reset b)
    (by simp [MarbleBagCrux.Reset])
    (by simp [MarbleBagCrux.Reset, MarbleBagCrux.count_true_replicate_false]; omega) hroll
  exact ⟨h1.trans h2.symm, r, b', h1.trans hd⟩

/-- C6 witness: the exhausted two-marble bag with `bAutoReset = true` draws
exactly as the reset bag does. -/
theorem C6_auto_refill_continuity_witness :
    MarbleBagCrux.GetNext cruxExhaustedAuto =
      MarbleBagCrux.GetNext (MarbleBagCrux.Reset cruxExhaustedAuto) :=
  (C6_auto_refill_continuity cruxExhaustedAuto (fun _ => Nat.zero_lt_two)
    (by decide) rfl).1

/-- C8: two bags of the same size whose roll streams, stream cursors, bitmaps,
counters and auto-reset flags agree produce identical observation sequences and
final states under any sequence of draws, resets and queries (the embedding of
`std::default_random_engine` seeded identically is the same roll stream). -/
theorem C8_determinism (ops : List MarbleBagCrux.Op) (b₁ b₂ : MarbleBagCrux.Bag)
    (h1 : b₁.numMarbles = b₂.numMarbles) (h2 : b₁.roll = b₂.roll)
    (h3 : b₁.rollPos = b₂.rollPos) (h4 : b₁.removed = b₂.removed)
    (h5 : b₁.numRemoved = b₂.numRemoved) (h6 : b₁.bAutoReset = b₂.bAutoReset) :
    MarbleBagCrux.runOps b₁ ops = MarbleBagCrux.runOps b₂ ops := by
  have h : b₁ = b₂ := by
    cases b₁
    cases b₂
    simp_all
  rw [h]

/-- C8 witness: a `mkBag`-constructed bag and the literal state it denotes are
driven identically through draw, query, reset, draw. -/
theorem C8_determinism_witness :
    MarbleBagCrux.runOps (MarbleBagCrux.mkBag 2 rollZero)
        [MarbleBagCrux.Op.draw, MarbleBagCrux.Op.remaining,
         MarbleBagCrux.Op.reset, MarbleBagCrux.Op.draw] =
      MarbleBagCrux.runOps
        ⟨2, rollZero, 0, List.replicate 2 false, 0, true⟩
        [MarbleBagCrux.Op.draw, MarbleBagCrux.Op.remaining,
         MarbleBagCrux.Op.reset, MarbleBagCrux.Op.draw] :=
  C8_determinism _ _ _ rfl rfl rfl rfl rfl rfl

/-- C10: move assignment transfers the exhaustion bitmap and the roll function
(with its stream cursor) from the source bag and leaves the destination's
`m_numRemoved` untouched; move construction starts from default-initialized
members (`m_numRemoved = 0`) and move-assigns, so the constructed bag carries
the source's k-bit bitmap while `GetRemainingCount` reports the full
`NumMarbles`. -/
theorem C10_move_semantics (dest src : MarbleBagCrux.Bag) (k : ℕ)
    (hk : src.removed.count true = k) :
    (MarbleBagCrux.moveConstruct src).removed = src.removed ∧
    (MarbleBagCrux.moveConstruct src).roll = src.roll ∧
    (MarbleBagCrux.moveConstruct src).removed.count true = k ∧
    (MarbleBagCrux.moveConstruct src).numRemoved = 0 ∧
    MarbleBagCrux.GetRemainingCount (MarbleBagCrux.moveConstruct src) =
      (src.numMarbles : ℤ) ∧
    (MarbleBagCrux.moveAssign dest src).removed = src.removed ∧
    (MarbleBagCrux.moveAssign dest src).roll = src.roll ∧
    (MarbleBagCrux.moveAssign dest src).numRemoved = dest.numRemoved := by
  simp [MarbleBagCrux.moveConstruct, MarbleBagCrux.moveAssign,
    MarbleBagCrux.GetRemainingCount, hk]

/-- C10 witness: move-constructing from the exhausted two-marble bag (both bits
set, `m_numRemoved = 2`) yields a bag whose bitmap still has 2 bits set while
its remaining count reads the full 2. -/
theorem C10_move_semantics_witness :
    (MarbleBagCrux.moveConstruct cruxExhaustedNoAuto).removed =
      cruxExhaustedNoAuto.removed ∧
    (MarbleBagCrux.moveConstruct cruxExhaustedNoAuto).roll =
      cruxExhaustedNoAuto.roll ∧
    (MarbleBagCrux.moveConstruct cruxExhaustedNoAuto).removed.count true = 2 ∧
    (MarbleBagCrux.moveConstruct cruxExhaustedNoAuto).numRemoved = 0 ∧
    MarbleBagCrux.GetRemainingCount
        (MarbleBagCrux.moveConstruct cruxExhaustedNoAuto) =
      (cruxExhaustedNoAuto.numMarbles : ℤ) ∧
    (MarbleBagCrux.moveAssign cruxBag2 cruxExhaustedNoAuto).removed =
      cruxExhaustedNoAuto.removed ∧
    (MarbleBagCrux.moveAssign cruxBag2 cruxExhaustedNoAuto).roll =
      cruxExhaustedNoAuto.roll ∧
    (MarbleBagCrux.moveAssign cruxBag2 cruxExhaustedNoAuto).numRemoved =
      cruxBag2.numRemoved :=
  C10_move_semantics cruxBag2 cruxExhaustedNoAuto 2 (by decide)

/-- C9 (amended): `GetNext` terminates for every bag state satisfying the
invariant maintained by construction, draws and resets (bitmap of `NumMarbles`
bits with popcount at most `m_numRemoved`, rolls in `[0, NumMarbles - 1]`),
and whenever the bitmap is not full the selection loop completes within
`numToVisit * NumMarbles` loop-body steps — `numToVisit` passes over the bag's
bits, not one pass, as `C9_walk_exceeds_one_pass` shows. -/
theorem C9_termination_bounded (b : MarbleBagCrux.Bag)
    (hlen : b.removed.length = b.numMarbles)
    (hcnt : (b.removed.count true : ℤ) ≤ b.numRemoved)
    (hroll : ∀ i, b.roll i < b.numMarbles) :
    (∃ x, MarbleBagCrux.GetNext b = some x) ∧
    (∀ toVisit result, result < b.numMarbles →
      b.removed.count true < b.numMarbles →
      ∃ r s, MarbleBagCrux.walk b.removed b.numMarbles toVisit
          (toVisit * b.numMarbles) result 0 0 = some (r, s) ∧
        s ≤ toVisit * b.numMarbles) := by
  refine ⟨MarbleBagCrux.getNext_succeeds b hlen hcnt hroll, ?_⟩
  intro toVisit result hres hfull
  obtain ⟨e, he, hemp⟩ := MarbleBagCrux.count_true_lt_exists_false b.removed (by omega)
  obtain ⟨r, s, hw⟩ := MarbleBagCrux.walk_succeeds b.removed b.numMarbles toVisit
    e (by omega) hemp toVisit (toVisit * b.numMarbles) result 0 0 hres
    (by omega) le_rfl
  exact ⟨r, s, hw, by
    have := MarbleBagCrux.walk_steps_le b.removed b.numMarbles toVisit
      (toVisit * b.numMarbles) result 0 0 r s hw
    omega⟩

/-- C9 witness: on the fresh two-marble bag the draw terminates, and the walk
with `numToVisit = 1` from position 0 completes within its fuel. -/
theorem C9_termination_bounded_witness :
    (MarbleBagCrux.GetNext (MarbleBagCrux.mkBag 2 rollZero)).isSome = true ∧
    (MarbleBagCrux.walk (MarbleBagCrux.mkBag 2 rollZero).removed
        (MarbleBagCrux.mkBag 2 rollZero).numMarbles 1
        (1 * (MarbleBagCrux.mkBag 2 rollZero).numMarbles) 0 0 0).isSome = true := by
  have h := C9_termination_bounded (MarbleBagCrux.mkBag 2 rollZero) rfl
    (by decide) (fun _ => Nat.zero_lt_two)
  obtain ⟨x, hx⟩ := h.1
  obtain ⟨r, s, hw, hs⟩ := h.2 1 0 (by decide) (by decide)
  rw [hx, hw]
  exact ⟨rfl, rfl⟩

namespace MarbleBagDark

lemma getD_take_append_replicate (l : List ℕ) (s pad i : ℕ) (hs : s ≤ l.length) :
    (l.take s ++ List.replicate pad 0).getD i 0 =
      if i < s then l.getD i 0 else 0 := by
  have hlen : (l.take s).length = s := by
    rw [List.length_take]
    omega
  by_cases h : i < s
  · rw [if_pos h, List.getD_append _ _ _ _ (by omega),
      List.getD_eq_getElem _ _ (by omega),
      List.getD_eq_getElem _ _ (by omega : i < l.length)]
    exact List.getElem_take l
  · rw [if_neg h, List.getD_append_right _ _ _ _ (by omega)]
    simp [List.getD_eq_getElem?_getD]

end MarbleBagDark

/-- C7: `SetUsageData` overwrites the internal word array with the supplied
words: the first `min( arraySize, _inNumElements )` internal words come from
the caller's array, every internal word beyond that is zero-filled, caller
words beyond the internal capacity are ignored, the array keeps its fixed
length, and nothing else of the bag changes (the operation is total — it never
fails).  The hypothesis says the caller's claimed element count does not exceed
the caller's actual array, as `memcpy` requires. -/
theorem C7_setUsageData_truncates_and_zero_fills (b : MarbleBagDark.Bag)
    (inData : List ℕ) (inNum : ℕ) (h : inNum ≤ inData.length) :
    (MarbleBagDark.SetUsageData b inData inNum).removedMarbles.length =
      MarbleBagDark.arraySize b.numMarbles ∧
    (∀ i, i < MarbleBagDark.arraySize b.numMarbles →
      (MarbleBagDark.SetUsageData b inData inNum).removedMarbles.getD i 0 =
        if i < min (MarbleBagDark.arraySize b.numMarbles) inNum
        then inData.getD i 0 else 0) ∧
    (MarbleBagDark.SetUsageData b inData inNum).numMarbles = b.numMarbles ∧
    (MarbleBagDark.SetUsageData b inData inNum).roll = b.roll ∧
    (MarbleBagDark.SetUsageData b inData inNum).rollPos = b.rollPos ∧
    (MarbleBagDark.SetUsageData b inData inNum).numRemoved = b.numRemoved := by
  refine ⟨?_, ?_, rfl, rfl, rfl, rfl⟩
  · simp only [MarbleBagDark.SetUsageData, List.length_append,
      List.length_take, List.length_replicate]
    omega
  · intro i hi
    exact MarbleBagDark.getD_take_append_replicate inData _ _ i (by omega)

/-- C7 witness: importing `[5, 7]` with count 2 into a one-word
`dark::MarbleBag< 64 >` keeps one internal word and that word is the caller's
first word (the second caller word is ignored). -/
theorem C7_setUsageData_truncates_and_zero_fills_witness :
    (MarbleBagDark.SetUsageData darkUsageBag [5, 7] 2).removedMarbles.length = 1 ∧
    (MarbleBagDark.SetUsageData darkUsageBag [5, 7] 2).removedMarbles.getD 0 0 = 5 := by
  have h := C7_setUsageData_truncates_and_zero_fills darkUsageBag [5, 7] 2 (by decide)
  refine ⟨h.1, ?_⟩
  have h2 := h.2.1 0 (by decide)
  rw [if_pos (by decide)] at h2
  rw [h2]
  rfl
